import Mathlib

/-!
Verification of the homelab-horizon core: the dry-run capability abstraction
(internal/system/interfaces.go) and the WireGuard configuration model
(parser, peer lookup, address allocation), embedded shallowly in Lean.
-/

/-- Go byte slices are modelled as lists of byte values. -/
abbrev Bytes := List Nat

/-- Go error values (the error interface) are modelled by their message. -/
structure GoErr where
  msg : String
deriving DecidableEq

/-- Go map with string keys: association list where insertion replaces an
existing key binding in place (Go map assignment semantics). -/
def mapInsert (m : List (String × α)) (k : String) (v : α) : List (String × α) :=
  match m with
  | [] => [(k, v)]
  | (k', v') :: rest => if k' = k then (k, v) :: rest else (k', v') :: mapInsert rest k v

/-- Go map read: the value bound to key k, if any. -/
def mapFind (m : List (String × α)) (k : String) : Option α :=
  match m with
  | [] => none
  | (k', v') :: rest => if k' = k then some v' else mapFind rest k

/-- Result of an os.FileInfo: the fields mockFileInfo implements
(interfaces.go lines 403-413). -/
structure FileInfo where
  name : String
  size : Int
  mode : Nat
  isDir : Bool
deriving DecidableEq

/-- The mockFileInfo the dry-run Stat fabricates for overlay paths:
Name is the path, Size 0, Mode 0644, IsDir as given. -/
def mockFileInfo (path : String) (isDir : Bool) : FileInfo :=
  { name := path, size := 0, mode := 420, isDir := isDir }

/-- Abstraction of the real operating-system filesystem that the dry-run
implementation falls through to: what os.Stat and os.ReadFile would answer. -/
structure RealFS where
  statF : String → Option FileInfo
  readF : String → Option Bytes

/-- State of DryRunFileSystem (interfaces.go lines 130-137): five maps keyed
by path. The mutex only guards the maps; call ordering is already sequential
in this model. -/
structure DryRunFileSystem where
  files   : List (String × Bytes)
  written : List (String × Bytes)
  created : List (String × Bool)
  removed : List (String × Bool)
  mkdirs  : List (String × Bool)
deriving DecidableEq

/-- NewDryRunFileSystem: all five maps empty. -/
def DryRunFileSystem.init : DryRunFileSystem :=
  { files := [], written := [], created := [], removed := [], mkdirs := [] }

/-- A world pairs the dry-run overlay state with the real filesystem it can
fall through to; frame properties are stated as preservation of the real part. -/
structure World where
  fs   : DryRunFileSystem
  real : RealFS

/-- DryRunFileSystem.ReadFile: written overlay first, then seeded files,
then the real filesystem (interfaces.go lines 149-162). -/
def World.readFile (w : World) (path : String) : Option Bytes :=
  match mapFind w.fs.written path with
  | some data => some data
  | none =>
    match mapFind w.fs.files path with
    | some data => some data
    | none => w.real.readF path

/-- DryRunFileSystem.WriteFile: records the write in the written map and
returns nil (interfaces.go lines 164-169). The perm argument is accepted and
ignored, as in the source. -/
def World.writeFile (w : World) (path : String) (data : Bytes) (_perm : Nat) :
    World × Option GoErr :=
  ({ w with fs := { w.fs with written := mapInsert w.fs.written path data } }, none)

/-- DryRunFileSystem.Remove: records the path in the removed set and returns
nil (interfaces.go lines 210-215). -/
def World.remove (w : World) (path : String) : World × Option GoErr :=
  ({ w with fs := { w.fs with removed := mapInsert w.fs.removed path true } }, none)

/-- DryRunFileSystem.MkdirAll: records the path in the mkdirs set and returns
nil (interfaces.go lines 217-222). -/
def World.mkdirAll (w : World) (path : String) (_perm : Nat) : World × Option GoErr :=
  ({ w with fs := { w.fs with mkdirs := mapInsert w.fs.mkdirs path true } }, none)

/-- DryRunFileSystem.AddFile: seeds the files map (interfaces.go lines 224-228). -/
def World.addFile (w : World) (path : String) (data : Bytes) : World :=
  { w with fs := { w.fs with files := mapInsert w.fs.files path data } }

/-- DryRunFileSystem.Stat (interfaces.go lines 171-188): files, then created,
then mkdirs, then fall through to os.Stat. The written and removed maps are
not consulted. -/
def World.stat (w : World) (path : String) : Option FileInfo :=
  if (mapFind w.fs.files path).isSome then some (mockFileInfo path false)
  else if (mapFind w.fs.created path).isSome then some (mockFileInfo path false)
  else if (mapFind w.fs.mkdirs path).isSome then some (mockFileInfo path true)
  else w.real.statF path

/-- DryRunFileSystem.Exists (interfaces.go lines 190-208): files, then
created, then mkdirs, then fall through to os.Stat. The written and removed
maps are not consulted. -/
def World.existsP (w : World) (path : String) : Bool :=
  if (mapFind w.fs.files path).isSome then true
  else if (mapFind w.fs.created path).isSome then true
  else if (mapFind w.fs.mkdirs path).isSome then true
  else (w.real.statF path).isSome

/-- GetWrittenFiles (interfaces.go lines 230-238): a copy of the written map.
Copying an association list is the identity. -/
def DryRunFileSystem.getWrittenFiles (fs : DryRunFileSystem) : List (String × Bytes) :=
  fs.written

/-- GetRemovedFiles (interfaces.go lines 250-258): a copy of the removed set. -/
def DryRunFileSystem.getRemovedFiles (fs : DryRunFileSystem) : List (String × Bool) :=
  fs.removed

/-- GetCreatedDirs (interfaces.go lines 260-268): a copy of the mkdirs set. -/
def DryRunFileSystem.getCreatedDirs (fs : DryRunFileSystem) : List (String × Bool) :=
  fs.mkdirs

/-- One mutating call of the C1 scenario: WriteFile, MkdirAll or Remove. -/
inductive FsOp where
  | write  (path : String) (data : Bytes) (perm : Nat)
  | mkdir  (path : String) (perm : Nat)
  | remove (path : String)

/-- Dispatch one FsOp to the corresponding dry-run method. -/
def World.applyOp (w : World) (op : FsOp) : World × Option GoErr :=
  match op with
  | .write path data perm => w.writeFile path data perm
  | .mkdir path perm      => w.mkdirAll path perm
  | .remove path          => w.remove path

/-- Run a sequence of mutating calls, collecting each call's returned error. -/
def World.runOps (w : World) : List FsOp → World × List (Option GoErr)
  | [] => (w, [])
  | op :: rest =>
    let (w1, e) := w.applyOp op
    let (w2, es) := w1.runOps rest
    (w2, e :: es)

/-- The data of the last WriteFile to path p in a call sequence, if any:
what the written map must hold for p after the sequence runs. -/
def lastWrite (seq : List FsOp) (p : String) : Option Bytes :=
  match seq with
  | [] => none
  | op :: rest =>
    match lastWrite rest p with
    | some d => some d
    | none =>
      match op with
      | .write q d _ => if q = p then some d else none
      | _ => none

/-- Whether the sequence contains an MkdirAll call for path p. -/
def mkdirIn (seq : List FsOp) (p : String) : Bool :=
  seq.any fun op =>
    match op with
    | .mkdir q _ => q = p
    | _ => false

/-- Whether the sequence contains a Remove call for path p. -/
def removeIn (seq : List FsOp) (p : String) : Bool :=
  seq.any fun op =>
    match op with
    | .remove q => q = p
    | _ => false

/-- A real filesystem on which no path exists, used for concrete scenarios. -/
def emptyRealFS : RealFS :=
  { statF := fun _ => none, readF := fun _ => none }

/-- A live stream handle; a Go nil interface value (io.Reader or
io.WriteCloser) is modelled as none. -/
structure StreamHandle where
  id : Nat
deriving DecidableEq

/-- The no-op process handle mockProcess (interfaces.go lines 424-430). -/
structure MockProcess where
deriving DecidableEq

/-- mockProcess.Wait: returns nil. -/
def MockProcess.wait (_ : MockProcess) : Option GoErr := none

/-- mockProcess.Kill: returns nil. -/
def MockProcess.kill (_ : MockProcess) : Option GoErr := none

/-- mockProcess.StdinPipe: returns nil, nil. -/
def MockProcess.stdinPipe (_ : MockProcess) : Option StreamHandle × Option GoErr :=
  (none, none)

/-- mockProcess.StdoutPipe: returns nil, nil. -/
def MockProcess.stdoutPipe (_ : MockProcess) : Option StreamHandle × Option GoErr :=
  (none, none)

/-- mockProcess.StderrPipe: returns nil, nil. -/
def MockProcess.stderrPipe (_ : MockProcess) : Option StreamHandle × Option GoErr :=
  (none, none)

/-- State of DryRunCommandRunner (interfaces.go lines 270-275): invocation
log plus canned outputs and canned errors keyed by literal command line. -/
structure DryRunCommandRunner where
  ran     : List String
  outputs : List (String × Bytes)
  errors  : List (String × GoErr)
deriving DecidableEq

/-- NewDryRunCommandRunner: empty log, no canned outputs or errors. -/
def DryRunCommandRunner.init : DryRunCommandRunner :=
  { ran := [], outputs := [], errors := [] }

/-- commandString (interfaces.go lines 395-401): joins argv with single
spaces; every caller passes the nonempty slice name :: args. -/
def commandString (name : String) (args : List String) : String :=
  args.foldl (fun acc arg => acc ++ " " ++ arg) name

/-- DryRunCommandRunner.Run (interfaces.go lines 285-298): append the
reconstructed command line to the log, then return the canned error for that
exact line if one exists, else nil. -/
def DryRunCommandRunner.Run (r : DryRunCommandRunner) (name : String) (args : List String) :
    DryRunCommandRunner × Option GoErr :=
  let cmdStr := commandString name args
  let r1 := { r with ran := r.ran ++ [cmdStr] }
  match mapFind r.errors cmdStr with
  | some e => (r1, some e)
  | none => (r1, none)

/-- DryRunCommandRunner.Output (interfaces.go lines 300-317): append the
command line to the log; canned error if registered, else canned output if
registered, else an empty byte slice with success. -/
def DryRunCommandRunner.Output (r : DryRunCommandRunner) (name : String) (args : List String) :
    DryRunCommandRunner × Except GoErr Bytes :=
  let cmdStr := commandString name args
  let r1 := { r with ran := r.ran ++ [cmdStr] }
  match mapFind r.errors cmdStr with
  | some e => (r1, .error e)
  | none =>
    match mapFind r.outputs cmdStr with
    | some out => (r1, .ok out)
    | none => (r1, .ok [])

/-- DryRunCommandRunner.CombinedOutput (interfaces.go lines 319-321):
delegates to Output. -/
def DryRunCommandRunner.CombinedOutput (r : DryRunCommandRunner) (name : String)
    (args : List String) : DryRunCommandRunner × Except GoErr Bytes :=
  r.Output name args

/-- DryRunCommandRunner.Start (interfaces.go lines 323-336): append the
command line to the log; canned error if registered, else a fresh
mockProcess handle. -/
def DryRunCommandRunner.Start (r : DryRunCommandRunner) (name : String) (args : List String) :
    DryRunCommandRunner × Except GoErr MockProcess :=
  let cmdStr := commandString name args
  let r1 := { r with ran := r.ran ++ [cmdStr] }
  match mapFind r.errors cmdStr with
  | some e => (r1, .error e)
  | none => (r1, .ok ⟨⟩)

/-- DryRunCommandRunner.AddOutput (interfaces.go lines 345-349). -/
def DryRunCommandRunner.AddOutput (r : DryRunCommandRunner) (command : String) (out : Bytes) :
    DryRunCommandRunner :=
  { r with outputs := mapInsert r.outputs command out }

/-- DryRunCommandRunner.AddError (interfaces.go lines 351-355). -/
def DryRunCommandRunner.AddError (r : DryRunCommandRunner) (command : String) (e : GoErr) :
    DryRunCommandRunner :=
  { r with errors := mapInsert r.errors command e }

/-- DryRunCommandRunner.GetRunCommands (interfaces.go lines 357-361). -/
def DryRunCommandRunner.GetRunCommands (r : DryRunCommandRunner) : List String :=
  r.ran

/-- The stream-accessor behavior the C9 claim asserts, in the spec's words:
the accessor returns an actual (closed/empty) stream handle together with a
nil error. -/
def returnsStream (res : Option StreamHandle × Option GoErr) : Prop :=
  ∃ h, res = (some h, none)

/-!
## WireGuard configuration model

The wireguard package's implementation is absent from src/ (only its test
file is present), so the definitions below are modelled from the spec
(sections 3, 4.2, 4.3) and checked against the expectations encoded in the
test file src/unnamed/part_000.
-/

/-- Whitespace characters trimmed at the edges of keys and values (the set
strings.TrimSpace removes for ASCII input). -/
def isWsChar (c : Char) : Bool :=
  c = ' ' || c = '\t' || c = '\n' || c = '\r'

/-- Modelled from the spec: strings.TrimSpace on a line or value — remove
leading and trailing whitespace, preserving interior whitespace. -/
def trimL (s : List Char) : List Char :=
  ((s.dropWhile isWsChar).reverse.dropWhile isWsChar).reverse

/-- Modelled from the spec: extractValue (the wireguard package's
value-extraction rule, present in src only through TestExtractValue): find
the first equals sign; the value is the text to its right with leading and
trailing whitespace removed; a line without an equals sign yields the empty
string. -/
def extractValueL : List Char → List Char
  | [] => []
  | c :: cs => if c = '=' then trimL cs else extractValueL cs

/-- String-level extractValue. -/
def extractValue (s : String) : String := ⟨extractValueL s.data⟩

/-- The characters before the first occurrence of sep (all of them if sep
does not occur). -/
def takeUntil (sep : Char) : List Char → List Char
  | [] => []
  | c :: cs => if c = sep then [] else c :: takeUntil sep cs

/-- Split on a separator character, Go strings.Split semantics: n separators
give n+1 fields. -/
def splitSep (sep : Char) : List Char → List (List Char)
  | [] => [[]]
  | c :: cs =>
    if c = sep then [] :: splitSep sep cs
    else
      match splitSep sep cs with
      | [] => [[c]]
      | l :: ls => (c :: l) :: ls

/-- Join lines with newline characters, the inverse of splitting on a
newline. -/
def joinLinesC : List (List Char) → List Char
  | [] => []
  | [l] => l
  | l :: ls => l ++ '\n' :: joinLinesC ls

/-- One WireGuard peer entry: display name from the preceding comment,
public key, and allowed-IPs CIDR (spec section 3). -/
structure Peer where
  Name : String
  PublicKey : String
  AllowedIPs : String
deriving DecidableEq

/-- One WireGuard interface configuration (spec section 3). -/
structure Config where
  path : String
  iface : String
  privateKey : String
  address : String
  listenPort : String
  postUp : String
  postDown : String
  peers : List Peer
deriving DecidableEq

/-- NewConfig: binds a path and interface name; all other fields empty. -/
def Config.new (path iface : String) : Config :=
  { path := path, iface := iface, privateKey := "", address := "",
    listenPort := "", postUp := "", postDown := "", peers := [] }

/-- Parser section state (spec section 4.2): Unset, Interface or Peer. -/
inductive WgSection where
  | unset
  | interfaceSec
  | peerSec
deriving DecidableEq

/-- The peer record currently being filled: name, key, allowed IPs, and
whether its first key line has been seen (which consumes the pending
comment as the peer's name). -/
structure CurPeer where
  pname : List Char
  pkey : List Char
  pips : List Char
  keySeen : Bool
deriving DecidableEq

/-- Full parser state: section, interface fields, completed peers, the peer
being filled, and the one-slot comment lookback buffer. -/
structure ParseState where
  sec : WgSection
  privateKey : List Char
  address : List Char
  listenPort : List Char
  postUp : List Char
  postDown : List Char
  done : List Peer
  cur : Option CurPeer
  pend : Option (List Char)
deriving DecidableEq

/-- Initial parser state. -/
def initState : ParseState :=
  { sec := .unset, privateKey := [], address := [], listenPort := [],
    postUp := [], postDown := [], done := [], cur := none, pend := none }

/-- Convert a filled peer record to a Peer. -/
def peerOf (c : CurPeer) : Peer :=
  { Name := ⟨c.pname⟩, PublicKey := ⟨c.pkey⟩, AllowedIPs := ⟨c.pips⟩ }

/-- The completed peer list, flushing the peer currently being filled. -/
def flushPeers (st : ParseState) : List Peer :=
  st.done ++ (match st.cur with
    | some c => [peerOf c]
    | none => [])

/-- Modelled from the spec: one step of the line-oriented parse (spec
section 4.2). The line is trimmed; a section marker switches state (a Peer
marker appends a fresh peer); a blank line clears the comment lookback; a
comment line loads the lookback; otherwise the line is a key/value line
split at the first equals sign, recognized keys update the interface or
current peer, the first key line of a peer consumes the pending comment as
its name, and unrecognized keys are ignored. -/
def parseLine (st : ParseState) (line : List Char) : ParseState :=
  let t := trimL line
  if t = "[Interface]".data then
    { st with sec := .interfaceSec, pend := none }
  else if t = "[Peer]".data then
    { st with
      sec := .peerSec, done := flushPeers st,
      cur := some ⟨[], [], [], false⟩, pend := none }
  else if t = [] then
    { st with pend := none }
  else if t.head? = some '#' then
    { st with pend := some (trimL (t.drop 1)) }
  else
    let key := trimL (takeUntil '=' t)
    let value := extractValueL t
    match st.sec with
    | .unset => { st with pend := none }
    | .interfaceSec =>
      if key = "PrivateKey".data then { st with privateKey := value, pend := none }
      else if key = "Address".data then { st with address := value, pend := none }
      else if key = "ListenPort".data then { st with listenPort := value, pend := none }
      else if key = "PostUp".data then { st with postUp := value, pend := none }
      else if key = "PostDown".data then { st with postDown := value, pend := none }
      else { st with pend := none }
    | .peerSec =>
      match st.cur with
      | none => { st with pend := none }
      | some c =>
        let c1 :=
          if key = "PublicKey".data then { c with pkey := value }
          else if key = "AllowedIPs".data then { c with pips := value }
          else c
        let c2 :=
          if c1.keySeen then c1
          else { c1 with pname := st.pend.getD [], keySeen := true }
        { st with cur := some c2, pend := none }

/-- Run the parser over all lines. -/
def parseLinesC (st : ParseState) (lines : List (List Char)) : ParseState :=
  lines.foldl parseLine st

/-- Modelled from the spec: the parse of a whole file's content — split on
newlines and fold the line parser, then install the resulting fields. -/
def parseConfigText (cfg : Config) (content : List Char) : Config :=
  let st := parseLinesC initState (splitSep '\n' content)
  { cfg with
    privateKey := ⟨st.privateKey⟩, address := ⟨st.address⟩,
    listenPort := ⟨st.listenPort⟩, postUp := ⟨st.postUp⟩,
    postDown := ⟨st.postDown⟩, peers := flushPeers st }

/-- Modelled from the spec: Config.Load — read the whole file through the
FileSystem contract (readF abstracts the injected FileSystem's ReadFile),
propagate a read failure, else parse. -/
def Config.load (cfg : Config) (readF : String → Option (List Char)) :
    Except GoErr Config :=
  match readF cfg.path with
  | none => .error ⟨"read failed"⟩
  | some content => .ok (parseConfigText cfg content)

/-- Modelled from the spec: GetPeers — the parsed peers in file order. -/
def Config.GetPeers (cfg : Config) : List Peer := cfg.peers

/-- Modelled from the spec: GetAddress — the interface's own CIDR string. -/
def Config.GetAddress (cfg : Config) : String := cfg.address

/-- The AllowedIPs string with its CIDR suffix stripped to the bare
address: the characters before the first slash. -/
def stripCidr (s : String) : String := ⟨takeUntil '/' s.data⟩

/-- Modelled from the spec: GetPeerByIP — linear scan in file order for the
first peer whose AllowedIPs, stripped of its CIDR suffix, equals the
queried address; nil (none) if no peer matches. -/
def Config.GetPeerByIP (cfg : Config) (ip : String) : Option Peer :=
  cfg.peers.find? (fun p => stripCidr p.AllowedIPs == ip)

/-- Numeric value of a decimal digit character. -/
def digitVal (c : Char) : Option Nat :=
  if '0' ≤ c ∧ c ≤ '9' then some (c.toNat - '0'.toNat) else none

/-- Parse a nonempty all-digit string as a decimal number. -/
def digitsToNat (cs : List Char) : Option Nat :=
  match cs with
  | [] => none
  | _ =>
    cs.foldl (fun acc c =>
      match acc, digitVal c with
      | some n, some d => some (n * 10 + d)
      | _, _ => none) (some 0)

/-- Parse one dotted-quad octet: decimal digits, value at most 255. -/
def parseOctet (cs : List Char) : Option Nat :=
  match digitsToNat cs with
  | some n => if n ≤ 255 then some n else none
  | none => none

/-- Parse a dotted-quad IPv4 address into its 32-bit numeric value. -/
def parseIPv4L (cs : List Char) : Option Nat :=
  match splitSep '.' cs with
  | [a, b, c, d] =>
    match parseOctet a, parseOctet b, parseOctet c, parseOctet d with
    | some x, some y, some z, some w => some (((x * 256 + y) * 256 + z) * 256 + w)
    | _, _, _, _ => none
  | _ => none

/-- Parse an address/mask CIDR string into base address and mask width. -/
def parseCIDRL (cs : List Char) : Option (Nat × Nat) :=
  match splitSep '/' cs with
  | [ip, m] =>
    match parseIPv4L ip, digitsToNat m with
    | some base, some mask => if mask ≤ 32 then some (base, mask) else none
    | _, _ => none
  | _ => none

/-- Format a 32-bit numeric value as a dotted-quad IPv4 address. -/
def formatIPv4 (n : Nat) : List Char :=
  Nat.toDigits 10 (n / 16777216 % 256) ++ '.' ::
    (Nat.toDigits 10 (n / 65536 % 256) ++ '.' ::
      (Nat.toDigits 10 (n / 256 % 256) ++ '.' :: Nat.toDigits 10 (n % 256)))

/-- The numeric addresses already assigned to peers: each peer's AllowedIPs
with the CIDR suffix stripped, parsed as an IPv4 address. -/
def Config.assignedIPs (cfg : Config) : List Nat :=
  cfg.peers.filterMap (fun p => parseIPv4L (takeUntil '/' p.AllowedIPs.data))

/-- The candidate host addresses of a CIDR block in ascending numeric
order: the block without its network address (base), its first host
address (base+1, reserved as gateway) and its top broadcast address. -/
def hostCandidates (base mask : Nat) : List Nat :=
  List.range' (base + 2) (2 ^ (32 - mask) - 3)

/-- Modelled from the spec: GetNextIP — parse the CIDR, enumerate host
addresses in ascending order skipping the network address, the first host
address (gateway) and every address already assigned to a peer, and return
the first remaining address as a /32; an exhaustion error if none remains.
The documented skip-set choice for the top of the range: the broadcast
address is also excluded. -/
def Config.GetNextIP (cfg : Config) (cidr : String) : Except GoErr String :=
  match parseCIDRL cidr.data with
  | none => .error ⟨"failed to parse CIDR"⟩
  | some (base, mask) =>
    match (hostCandidates base mask).find? (fun ip => !(cfg.assignedIPs.contains ip)) with
    | some ip => .ok ⟨formatIPv4 ip ++ "/32".data⟩
    | none => .error ⟨"no available IPs in range"⟩

/-- Standard base64 alphabet characters (excluding the padding character). -/
def isB64Char (c : Char) : Bool :=
  decide (('A' ≤ c ∧ c ≤ 'Z') ∨ ('a' ≤ c ∧ c ≤ 'z') ∨ ('0' ≤ c ∧ c ≤ '9') ∨
    c = '+' ∨ c = '/')

/-- Modelled from the spec: ValidatePublicKey — true exactly for plausible
WireGuard public keys: 44 base64 characters including padding (decoding to
32 raw bytes, i.e. 43 alphabet characters followed by one padding '='),
free of whitespace. Empty, too-short, or whitespace-containing strings are
rejected. -/
def ValidatePublicKey (key : String) : Bool :=
  key.data.length == 44 && key.data.all (fun c => !isWsChar c) &&
    (key.data.take 43).all isB64Char && key.data.drop 43 == ['=']

/-- The TestGetPeerByIP / TestLoad two-peer configuration text. -/
def testConfigText : List Char :=
  ("[Interface]\nPrivateKey = cGFzc3dvcmQ=\nAddress = 10.100.0.1/24\n\n" ++
   "[Peer]\n# alice\nPublicKey = YWxpY2VrZXk=\nAllowedIPs = 10.100.0.2/32\n\n" ++
   "[Peer]\n# bob\nPublicKey = Ym9ia2V5\nAllowedIPs = 10.100.0.3/32\n").data

/-- The configuration parsed from the two-peer test text. -/
def wgTestConfig : Config :=
  parseConfigText (Config.new "/tmp/wg0.conf" "wg0") testConfigText

/-- A configuration with duplicate AllowedIPs across two peers. -/
def dupCfg : Config :=
  { Config.new "/tmp/wg0.conf" "wg0" with
    peers := [{ Name := "first", PublicKey := "k1", AllowedIPs := "10.100.0.2/32" },
              { Name := "second", PublicKey := "k2", AllowedIPs := "10.100.0.2/32" }] }

/-- The TestGetNextIP configuration: peers assigned .2 and .3 (no name
comments in that test's text). -/
def cfgPeers23 : Config :=
  { Config.new "/tmp/wg0.conf" "wg0" with
    privateKey := "cGFzc3dvcmQ=", address := "10.100.0.1/24",
    peers := [Peer.mk "" "YWxpY2VrZXk=" "10.100.0.2/32",
              Peer.mk "" "Ym9ia2V5" "10.100.0.3/32"] }

/-- The TestGetNextIPEmpty configuration: no peers. -/
def cfgNoPeers : Config :=
  { Config.new "/tmp/wg0.conf" "wg0" with
    privateKey := "cGFzc3dvcmQ=", address := "10.100.0.1/24" }

/-- A /30 block whose only candidate host address is already assigned. -/
def cfgExhausted : Config :=
  { Config.new "/tmp/wg0.conf" "wg0" with
    peers := [Peer.mk "a" "k" "10.0.0.2/32"] }

/-- A key/value line as rendered in well-formed configs: key, space, equals
sign, space, value. -/
def renderKV (key v : List Char) : List Char := key ++ ' ' :: '=' :: ' ' :: v

/-- The optional name-comment line of a peer block. -/
def renderName (n : Option (List Char)) : List (List Char) :=
  match n with
  | some nm => [('#' :: ' ' :: nm)]
  | none => []

/-- Interface block lines of a well-formed two-peer config, ending with a
blank separator line. -/
def ifaceLines (pk addr port : List Char) : List (List Char) :=
  ["[Interface]".data, renderKV "PrivateKey".data pk, renderKV "Address".data addr,
   renderKV "ListenPort".data port, []]

/-- Peer block lines: marker, optional name comment, key line, ips line. -/
def peerLines (n : Option (List Char)) (k i : List Char) : List (List Char) :=
  "[Peer]".data ::
    (renderName n ++ [renderKV "PublicKey".data k, renderKV "AllowedIPs".data i])

/-- All lines of a well-formed two-peer config (trailing blank line as in
the test file, which ends with a newline). -/
def twoPeerLines (pk addr port : List Char) (n1 : Option (List Char))
    (k1 i1 : List Char) (n2 : Option (List Char)) (k2 i2 : List Char) :
    List (List Char) :=
  ifaceLines pk addr port ++ peerLines n1 k1 i1 ++ [[]] ++ peerLines n2 k2 i2 ++ [[]]

/-- A well-formed scalar value: nonempty, already trimmed, single-line. -/
def goodVal (v : List Char) : Prop := v ≠ [] ∧ trimL v = v ∧ '\n' ∉ v

/-- A well-formed optional peer name. -/
def goodName : Option (List Char) → Prop
  | none => True
  | some nm => goodVal nm

theorem mapFind_insert (m : List (String × α)) (k p : String) (v : α) :
    mapFind (mapInsert m k v) p = if k = p then some v else mapFind m p := by
  induction m with
  | nil =>
      by_cases h : k = p <;> simp [mapInsert, mapFind, h]
  | cons hd tl ih =>
      obtain ⟨k', v'⟩ := hd
      by_cases hk : k' = k
      · subst hk
        by_cases hp : k' = p <;> simp [mapInsert, mapFind, hp]
      · by_cases hp : k' = p
        · subst hp
          have : ¬ k = k' := fun h => hk h.symm
          simp [mapInsert, hk, mapFind, this]
        · simp [mapInsert, hk, mapFind, hp, ih]

theorem applyOp_err (w : World) (op : FsOp) : (w.applyOp op).2 = none := by
  cases op <;> rfl

theorem applyOp_real (w : World) (op : FsOp) : (w.applyOp op).1.real = w.real := by
  cases op <;> rfl

theorem runOps_errs (w : World) (seq : List FsOp) :
    ((w.runOps seq).2).all (fun e => e.isNone) = true := by
  induction seq generalizing w with
  | nil => rfl
  | cons op rest ih =>
    simp only [World.runOps, List.all_cons, Bool.and_eq_true]
    exact ⟨by rw [applyOp_err]; rfl, ih _⟩

theorem runOps_real (w : World) (seq : List FsOp) :
    (w.runOps seq).1.real = w.real := by
  induction seq generalizing w with
  | nil => rfl
  | cons op rest ih =>
    simp only [World.runOps]
    rw [ih, applyOp_real]

theorem runOps_written (w : World) (seq : List FsOp) (p : String) :
    mapFind (w.runOps seq).1.fs.written p =
      (match lastWrite seq p with
       | some d => some d
       | none => mapFind w.fs.written p) := by
  induction seq generalizing w with
  | nil => rfl
  | cons op rest ih =>
    cases op with
    | write q d perm =>
      simp only [World.runOps, World.applyOp, World.writeFile, lastWrite]
      rw [ih]
      cases lastWrite rest p with
      | some d' => rfl
      | none =>
        simp only [mapFind_insert]
        by_cases h : q = p <;> simp [h]
    | mkdir q perm =>
      simp only [World.runOps, World.applyOp, World.mkdirAll, lastWrite]
      rw [ih]
      cases lastWrite rest p <;> rfl
    | remove q =>
      simp only [World.runOps, World.applyOp, World.remove, lastWrite]
      rw [ih]
      cases lastWrite rest p <;> rfl

theorem runOps_mkdirs (w : World) (seq : List FsOp) (p : String) :
    mapFind (w.runOps seq).1.fs.mkdirs p =
      (if mkdirIn seq p then some true else mapFind w.fs.mkdirs p) := by
  induction seq generalizing w with
  | nil => rfl
  | cons op rest ih =>
    cases op with
    | write q d perm =>
      simp only [World.runOps, World.applyOp, World.writeFile, mkdirIn, List.any_cons]
      rw [ih]
      rfl
    | mkdir q perm =>
      simp only [World.runOps, World.applyOp, World.mkdirAll, mkdirIn, List.any_cons]
      rw [ih]
      by_cases hq : q = p
      · subst hq
        by_cases hm : mkdirIn rest q <;>
          simp [mkdirIn, hm, mapFind_insert]
      · by_cases hm : mkdirIn rest p <;>
          simp [mkdirIn, hm, mapFind_insert, hq, decide_eq_true_eq]
    | remove q =>
      simp only [World.runOps, World.applyOp, World.remove, mkdirIn, List.any_cons]
      rw [ih]
      rfl

theorem runOps_removed (w : World) (seq : List FsOp) (p : String) :
    mapFind (w.runOps seq).1.fs.removed p =
      (if removeIn seq p then some true else mapFind w.fs.removed p) := by
  induction seq generalizing w with
  | nil => rfl
  | cons op rest ih =>
    cases op with
    | write q d perm =>
      simp only [World.runOps, World.applyOp, World.writeFile, removeIn, List.any_cons]
      rw [ih]
      rfl
    | mkdir q perm =>
      simp only [World.runOps, World.applyOp, World.mkdirAll, removeIn, List.any_cons]
      rw [ih]
      rfl
    | remove q =>
      simp only [World.runOps, World.applyOp, World.remove, removeIn, List.any_cons]
      rw [ih]
      by_cases hq : q = p
      · subst hq
        by_cases hm : removeIn rest q <;>
          simp [removeIn, hm, mapFind_insert]
      · by_cases hm : removeIn rest p <;>
          simp [removeIn, hm, mapFind_insert, hq, decide_eq_true_eq]

/-- C1: any sequence of dry-run WriteFile/MkdirAll/Remove calls returns
success on every call, never modifies the real filesystem, and afterwards
GetWrittenFiles holds exactly the written path-to-data pairs (the last write
per path), GetCreatedDirs exactly the MkdirAll paths, GetRemovedFiles exactly
the Remove paths; the accessors are pure, so repeated calls return equal
snapshots. -/
theorem C1_dry_run_records_exactly (real : RealFS) (seq : List FsOp) (p : String) :
    ((World.runOps ⟨DryRunFileSystem.init, real⟩ seq).2).all (fun e => e.isNone) = true ∧
    (World.runOps ⟨DryRunFileSystem.init, real⟩ seq).1.real = real ∧
    mapFind (World.runOps ⟨DryRunFileSystem.init, real⟩ seq).1.fs.getWrittenFiles p
      = lastWrite seq p ∧
    mapFind (World.runOps ⟨DryRunFileSystem.init, real⟩ seq).1.fs.getCreatedDirs p
      = (if mkdirIn seq p then some true else none) ∧
    mapFind (World.runOps ⟨DryRunFileSystem.init, real⟩ seq).1.fs.getRemovedFiles p
      = (if removeIn seq p then some true else none) ∧
    (World.runOps ⟨DryRunFileSystem.init, real⟩ seq).1.fs.getWrittenFiles
      = (World.runOps ⟨DryRunFileSystem.init, real⟩ seq).1.fs.getWrittenFiles := by
  refine ⟨runOps_errs _ _, runOps_real _ _, ?_, ?_, ?_, rfl⟩
  · rw [DryRunFileSystem.getWrittenFiles, runOps_written]
    cases lastWrite seq p <;> rfl
  · rw [DryRunFileSystem.getCreatedDirs, runOps_mkdirs]
    cases mkdirIn seq p <;> rfl
  · rw [DryRunFileSystem.getRemovedFiles, runOps_removed]
    cases removeIn seq p <;> rfl

/-- C3 counterexample: on a fresh dry-run filesystem over an empty real
filesystem, WriteFile records the path in the written overlay map, yet
Exists on that very path returns false — Exists does not consult the
written map, contradicting the claim that presence in any overlay map
makes Exists true. -/
theorem C3_counterexample :
    mapFind (World.writeFile ⟨DryRunFileSystem.init, emptyRealFS⟩ "/w" [1] 420).1.fs.written "/w"
      = some [1] ∧
    (World.writeFile ⟨DryRunFileSystem.init, emptyRealFS⟩ "/w" [1] 420).1.existsP "/w" = false :=
  ⟨rfl, rfl⟩

/-- C3 (amended): Exists and Stat consult only the seeded-files, created,
and mkdirs overlay maps. For a path present in one of those three, Exists is
true and Stat returns populated info, independently of the real filesystem;
for a path in none of the three (even one present in written or removed),
both fall through to the real filesystem. -/
theorem C3_overlay_exists_stat (w : World) (real' : RealFS) (p : String) :
    (((mapFind w.fs.files p).isSome = true ∨ (mapFind w.fs.created p).isSome = true ∨
        (mapFind w.fs.mkdirs p).isSome = true) →
      w.existsP p = true ∧ (∃ fi, w.stat p = some fi) ∧
      World.existsP ⟨w.fs, real'⟩ p = w.existsP p ∧
      World.stat ⟨w.fs, real'⟩ p = w.stat p) ∧
    (mapFind w.fs.files p = none → mapFind w.fs.created p = none →
      mapFind w.fs.mkdirs p = none →
      w.existsP p = (w.real.statF p).isSome ∧ w.stat p = w.real.statF p) := by
  constructor
  · intro h
    by_cases hf : (mapFind w.fs.files p).isSome = true
    · refine ⟨?_, ⟨mockFileInfo p false, ?_⟩, ?_, ?_⟩ <;>
        simp [World.existsP, World.stat, hf]
    · by_cases hc : (mapFind w.fs.created p).isSome = true
      · refine ⟨?_, ⟨mockFileInfo p false, ?_⟩, ?_, ?_⟩ <;>
          simp [World.existsP, World.stat, hf, hc]
      · have hm : (mapFind w.fs.mkdirs p).isSome = true := by
          rcases h with h | h | h
          · exact absurd h hf
          · exact absurd h hc
          · exact h
        refine ⟨?_, ⟨mockFileInfo p true, ?_⟩, ?_, ?_⟩ <;>
          simp [World.existsP, World.stat, hf, hc, hm]
  · intro hf hc hm
    constructor <;> simp [World.existsP, World.stat, hf, hc, hm]

/-- C3 amended-claim witness: concrete instantiation — a path seeded in the
files map exists and stats as populated info on an empty real filesystem, and
a fresh filesystem path falls through to the (empty) real filesystem. -/
theorem C3_overlay_exists_stat_witness :
    (World.existsP ⟨{ DryRunFileSystem.init with files := [("/a", [2])] }, emptyRealFS⟩ "/a"
        = true ∧
      (∃ fi, World.stat ⟨{ DryRunFileSystem.init with files := [("/a", [2])] }, emptyRealFS⟩ "/a"
        = some fi) ∧
      World.existsP ⟨{ DryRunFileSystem.init with files := [("/a", [2])] }, emptyRealFS⟩ "/a"
        = World.existsP ⟨{ DryRunFileSystem.init with files := [("/a", [2])] }, emptyRealFS⟩ "/a" ∧
      World.stat ⟨{ DryRunFileSystem.init with files := [("/a", [2])] }, emptyRealFS⟩ "/a"
        = World.stat ⟨{ DryRunFileSystem.init with files := [("/a", [2])] }, emptyRealFS⟩ "/a") ∧
    (World.existsP ⟨DryRunFileSystem.init, emptyRealFS⟩ "/b"
        = (emptyRealFS.statF "/b").isSome ∧
      World.stat ⟨DryRunFileSystem.init, emptyRealFS⟩ "/b" = emptyRealFS.statF "/b") :=
  ⟨(C3_overlay_exists_stat
      ⟨{ DryRunFileSystem.init with files := [("/a", [2])] }, emptyRealFS⟩
      emptyRealFS "/a").1 (Or.inl rfl),
   (C3_overlay_exists_stat ⟨DryRunFileSystem.init, emptyRealFS⟩ emptyRealFS "/b").2
      rfl rfl rfl⟩

/-- C6: if a canned error is registered for the exact literal command line,
Run, Output, CombinedOutput and Start return that error and append the
command line to the invocation log; in every case (error or not) the log
gains the reconstructed command line; with no canned error and no canned
output, Output returns an empty byte string with success. -/
theorem C6_canned_error_behavior (r : DryRunCommandRunner) (name : String)
    (args : List String) :
    (∀ e, mapFind r.errors (commandString name args) = some e →
      r.Run name args = ({ r with ran := r.ran ++ [commandString name args] }, some e) ∧
      r.Output name args
        = ({ r with ran := r.ran ++ [commandString name args] }, .error e) ∧
      r.CombinedOutput name args
        = ({ r with ran := r.ran ++ [commandString name args] }, .error e) ∧
      r.Start name args
        = ({ r with ran := r.ran ++ [commandString name args] }, .error e)) ∧
    (r.Run name args).1.ran = r.ran ++ [commandString name args] ∧
    (r.Output name args).1.ran = r.ran ++ [commandString name args] ∧
    (r.CombinedOutput name args).1.ran = r.ran ++ [commandString name args] ∧
    (r.Start name args).1.ran = r.ran ++ [commandString name args] ∧
    (mapFind r.errors (commandString name args) = none →
      mapFind r.outputs (commandString name args) = none →
      r.Output name args
        = ({ r with ran := r.ran ++ [commandString name args] }, .ok [])) := by
  refine ⟨?_, ?_, ?_, ?_, ?_, ?_⟩
  · intro e he
    refine ⟨?_, ?_, ?_, ?_⟩ <;>
      simp [DryRunCommandRunner.Run, DryRunCommandRunner.Output,
        DryRunCommandRunner.CombinedOutput, DryRunCommandRunner.Start, he]
  · rw [DryRunCommandRunner.Run]
    cases mapFind r.errors (commandString name args) <;> rfl
  · rw [DryRunCommandRunner.Output]
    cases h : mapFind r.errors (commandString name args)
    · cases mapFind r.outputs (commandString name args) <;> simp [h]
    · simp [h]
  · rw [DryRunCommandRunner.CombinedOutput, DryRunCommandRunner.Output]
    cases h : mapFind r.errors (commandString name args)
    · cases mapFind r.outputs (commandString name args) <;> simp [h]
    · simp [h]
  · rw [DryRunCommandRunner.Start]
    cases mapFind r.errors (commandString name args) <;> rfl
  · intro he ho
    simp [DryRunCommandRunner.Output, he, ho]

/-- C6 witness: registering the canned error for the literal line
failing-command makes Run return that error and leaves the log containing
failing-command; an unregistered Output call yields empty bytes. -/
theorem C6_canned_error_behavior_witness :
    ((DryRunCommandRunner.init.AddError "failing-command" ⟨"command failed"⟩).Run
        "failing-command" []).2 = some ⟨"command failed"⟩ ∧
    ((DryRunCommandRunner.init.AddError "failing-command" ⟨"command failed"⟩).Run
        "failing-command" []).1.ran = ["failing-command"] ∧
    (DryRunCommandRunner.init.Output "echo" ["hello"]).2 = Except.ok [] := by
  have h := C6_canned_error_behavior
    (DryRunCommandRunner.init.AddError "failing-command" ⟨"command failed"⟩)
    "failing-command" []
  have h1 := h.1 ⟨"command failed"⟩ rfl
  have h2 := (C6_canned_error_behavior DryRunCommandRunner.init "echo" ["hello"]).2.2.2.2.2
    rfl rfl
  refine ⟨?_, ?_, ?_⟩
  · rw [h1.1]
  · rw [h1.1]
    rfl
  · rw [h2]

/-- C10: CombinedOutput and Output are the same function on the dry-run
runner: identical result and identical effect on the invocation log, for
every runner state and every command. -/
theorem C10_combined_output_eq_output (r : DryRunCommandRunner) (name : String)
    (args : List String) :
    r.CombinedOutput name args = r.Output name args := rfl

/-- C9 counterexample: Start with no canned error does return a mockProcess
handle, but its stream accessors return a nil stream (none), not a
closed/empty stream object: no stream handle is returned at all. -/
theorem C9_counterexample :
    (DryRunCommandRunner.init.Start "sleep" ["1"]).2 = Except.ok ⟨⟩ ∧
    MockProcess.stdoutPipe ⟨⟩ = (none, none) ∧
    ¬ returnsStream (MockProcess.stdoutPipe ⟨⟩) := by
  refine ⟨rfl, rfl, ?_⟩
  rintro ⟨h, he⟩
  simp [MockProcess.stdoutPipe, Prod.ext_iff] at he

/-- C9 (amended): for every command with no canned error registered, Start
returns a no-op Process handle whose Wait and Kill return success and whose
stream accessors return a nil stream handle (no stream) and no error. -/
theorem C9_start_noop_process (r : DryRunCommandRunner) (name : String)
    (args : List String)
    (h : mapFind r.errors (commandString name args) = none) :
    ∃ p : MockProcess, (r.Start name args).2 = Except.ok p ∧
      p.wait = none ∧ p.kill = none ∧
      p.stdinPipe = (none, none) ∧ p.stdoutPipe = (none, none) ∧
      p.stderrPipe = (none, none) := by
  refine ⟨⟨⟩, ?_, rfl, rfl, rfl, rfl, rfl⟩
  simp [DryRunCommandRunner.Start, h]

/-- C9 amended-claim witness: the fresh runner has no canned error for the
line sleep 1, and Start there yields the trivial no-op handle. -/
theorem C9_start_noop_process_witness :
    ∃ p : MockProcess, (DryRunCommandRunner.init.Start "sleep" ["1"]).2 = Except.ok p ∧
      p.wait = none ∧ p.kill = none ∧
      p.stdinPipe = (none, none) ∧ p.stdoutPipe = (none, none) ∧
      p.stderrPipe = (none, none) :=
  C9_start_noop_process DryRunCommandRunner.init "sleep" ["1"] rfl

theorem extractValueL_no_eq (s : List Char) (h : '=' ∉ s) : extractValueL s = [] := by
  induction s with
  | nil => rfl
  | cons c cs ih =>
    rw [List.mem_cons, not_or] at h
    have hc : ¬ c = '=' := fun he => h.1 he.symm
    show (if c = '=' then trimL cs else extractValueL cs) = []
    rw [if_neg hc]
    exact ih h.2

theorem extractValueL_split (pre post : List Char) (h : '=' ∉ pre) :
    extractValueL (pre ++ '=' :: post) = trimL post := by
  induction pre with
  | nil =>
    show (if ('=' : Char) = '=' then trimL post else _) = trimL post
    rw [if_pos rfl]
  | cons c cs ih =>
    rw [List.mem_cons, not_or] at h
    have hc : ¬ c = '=' := fun he => h.1 he.symm
    show (if c = '=' then _ else extractValueL (cs ++ '=' :: post)) = trimL post
    rw [if_neg hc]
    exact ih h.2

theorem takeUntil_split (sep : Char) (pre post : List Char) (h : sep ∉ pre) :
    takeUntil sep (pre ++ sep :: post) = pre := by
  induction pre with
  | nil =>
    show (if sep = sep then [] else _) = []
    rw [if_pos rfl]
  | cons c cs ih =>
    rw [List.mem_cons, not_or] at h
    have hc : ¬ c = sep := fun he => h.1 he.symm
    show (if c = sep then [] else c :: takeUntil sep (cs ++ sep :: post)) = c :: cs
    rw [if_neg hc, ih h.2]

theorem trimL_decomposition (s : List Char) :
    ∃ w1 w2, s = w1 ++ trimL s ++ w2 ∧
      w1.all isWsChar = true ∧ w2.all isWsChar = true := by
  refine ⟨s.takeWhile isWsChar,
    ((s.dropWhile isWsChar).reverse.takeWhile isWsChar).reverse, ?_, ?_, ?_⟩
  · have hd : s.dropWhile isWsChar
        = trimL s ++ ((s.dropWhile isWsChar).reverse.takeWhile isWsChar).reverse := by
      conv_lhs => rw [← List.reverse_reverse (s.dropWhile isWsChar)]
      conv_lhs =>
        rw [← List.takeWhile_append_dropWhile isWsChar (s.dropWhile isWsChar).reverse]
      rw [List.reverse_append]
      rfl
    conv_lhs => rw [← List.takeWhile_append_dropWhile isWsChar s, hd]
    rw [List.append_assoc]
  · rw [List.all_eq_true]
    intro c hc
    exact List.mem_takeWhile_imp hc
  · rw [List.all_reverse, List.all_eq_true]
    intro c hc
    exact List.mem_takeWhile_imp hc

/-- C5: extractValue splits at the first equals sign: the value is the text
to its right with leading and trailing whitespace removed and interior
whitespace preserved (the trimmed value is a contiguous slice between two
all-whitespace margins); a line with no equals sign yields the empty
string; and the three concrete test examples hold. -/
theorem C5_extract_value (s pre post : List Char) :
    extractValue "Key = Value With Spaces" = "Value With Spaces" ∧
    extractValue "NoEquals" = "" ∧
    extractValue "Key=ValueNoSpaces" = "ValueNoSpaces" ∧
    ('=' ∉ pre → extractValueL (pre ++ '=' :: post) = trimL post) ∧
    ('=' ∉ s → extractValueL s = []) ∧
    (∃ w1 w2, post = w1 ++ trimL post ++ w2 ∧
      w1.all isWsChar = true ∧ w2.all isWsChar = true) :=
  ⟨by decide, by decide, by decide,
   extractValueL_split pre post,
   extractValueL_no_eq s,
   trimL_decomposition post⟩

/-- C5 witness: the split rule applied at a concrete line with interior and
edge whitespace, and the no-equals rule at a concrete line. -/
theorem C5_extract_value_witness :
    extractValueL ("Key ".data ++ '=' :: " Value With Spaces ".data)
      = trimL " Value With Spaces ".data ∧
    extractValueL "NoEquals".data = [] :=
  ⟨(C5_extract_value "NoEquals".data "Key ".data " Value With Spaces ".data).2.2.2.1
      (by decide),
   (C5_extract_value "NoEquals".data "Key ".data " Value With Spaces ".data).2.2.2.2.1
      (by decide)⟩

/-- C8: ValidatePublicKey accepts exactly plausible WireGuard public keys —
44 base64 characters including padding (43 alphabet characters and a final
padding character, decoding to 32 raw bytes) with no whitespace — and
rejects the empty string, too-short strings, and any string containing a
space. -/
theorem C8_validate_public_key (key : String) :
    ValidatePublicKey "YWJjZGVmZ2hpamtsbW5vcHFyc3R1dnd4eXoxMjM0NTY=" = true ∧
    ValidatePublicKey "" = false ∧
    ValidatePublicKey "short" = false ∧
    ValidatePublicKey "has spaces in it" = false ∧
    (key.data.length ≠ 44 → ValidatePublicKey key = false) ∧
    (' ' ∈ key.data → ValidatePublicKey key = false) ∧
    (ValidatePublicKey key = true ↔
      (key.data.length = 44 ∧ (∀ c ∈ key.data, isWsChar c = false) ∧
       (∀ c ∈ key.data.take 43, isB64Char c = true) ∧ key.data.drop 43 = ['='])) := by
  refine ⟨by decide, by decide, by decide, by decide, ?_, ?_, ?_⟩
  · intro h
    simp only [ValidatePublicKey, Bool.and_eq_false_iff, beq_eq_false_iff_ne, ne_eq]
    exact Or.inl (Or.inl (Or.inl h))
  · intro h
    have hall : key.data.all (fun c => !isWsChar c) = false := by
      rw [List.all_eq_false]
      exact ⟨' ', h, by decide⟩
    simp [ValidatePublicKey, hall]
  · simp [ValidatePublicKey, List.all_eq_true, and_assoc]

/-- C7: GetPeerByIP is a linear scan in file order returning the first peer
whose AllowedIPs with the CIDR suffix stripped equals the queried address;
it returns none when no peer matches and never signals ambiguity — on the
duplicate configuration it returns the first match. -/
theorem C7_get_peer_by_ip (cfg : Config) (ip : String) (p : Peer) :
    (cfg.GetPeerByIP ip = some p →
      stripCidr p.AllowedIPs = ip ∧
      ∃ i, ∃ hi : i < cfg.peers.length, cfg.peers[i] = p ∧
        ∀ j : Nat, (hj : j < i) → stripCidr (cfg.peers[j]).AllowedIPs ≠ ip) ∧
    (cfg.GetPeerByIP ip = none ↔ ∀ q ∈ cfg.peers, stripCidr q.AllowedIPs ≠ ip) ∧
    wgTestConfig.GetPeerByIP "10.100.0.2"
      = some { Name := "alice", PublicKey := "YWxpY2VrZXk=", AllowedIPs := "10.100.0.2/32" } ∧
    wgTestConfig.GetPeerByIP "10.100.0.99" = none ∧
    dupCfg.GetPeerByIP "10.100.0.2"
      = some { Name := "first", PublicKey := "k1", AllowedIPs := "10.100.0.2/32" } := by
  refine ⟨?_, ?_, by decide, by decide, by decide⟩
  · intro h
    rw [Config.GetPeerByIP, List.find?_eq_some_iff_getElem] at h
    obtain ⟨hp, i, hi, hgi, hpred⟩ := h
    refine ⟨beq_iff_eq.mp hp, i, hi, hgi, ?_⟩
    intro j hj heq
    have hj2 := hpred j hj
    rw [heq] at hj2
    simp at hj2
  · rw [Config.GetPeerByIP, List.find?_eq_none]
    constructor
    · intro h q hq heq
      have := h q hq
      rw [heq] at this
      simp at this
    · intro h q hq
      simp [h q hq]

/-- C7 witness: the first-match characterization applied at the duplicate
configuration and the address both peers carry. -/
theorem C7_get_peer_by_ip_witness :
    stripCidr (Peer.mk "first" "k1" "10.100.0.2/32").AllowedIPs = "10.100.0.2" ∧
    ∃ i, ∃ hi : i < dupCfg.peers.length,
      dupCfg.peers[i] = Peer.mk "first" "k1" "10.100.0.2/32" ∧
      ∀ j : Nat, (hj : j < i) →
        stripCidr (dupCfg.peers[j]).AllowedIPs ≠ "10.100.0.2" :=
  (C7_get_peer_by_ip dupCfg "10.100.0.2"
    (Peer.mk "first" "k1" "10.100.0.2/32")).1 (by decide)

/-- C8 witness: concrete rejections through the general too-short and
space-containing rules. -/
theorem C8_validate_public_key_witness :
    ValidatePublicKey "short" = false ∧
    ValidatePublicKey "has spaces in it" = false :=
  ⟨(C8_validate_public_key "short").2.2.2.2.1 (by decide),
   (C8_validate_public_key "has spaces in it").2.2.2.2.2.1 (by decide)⟩

theorem mem_hostCandidates (base mask e : Nat) :
    e ∈ hostCandidates base mask ↔
      base + 2 ≤ e ∧ e < base + 2 + (2 ^ (32 - mask) - 3) := by
  rw [hostCandidates, List.mem_range']
  constructor
  · rintro ⟨i, hi, rfl⟩
    omega
  · intro h
    exact ⟨e - (base + 2), by omega, by omega⟩

/-- C2: GetNextIP enumerates the block's host addresses in ascending order,
skips the network address and the first host address (gateway), skips every
address assigned to a peer, and returns the first remaining address as a
/32 — any returned address is an unassigned candidate all of whose
ascending predecessors among the candidates are assigned; when every
candidate is assigned it returns the exhaustion error. Concretely: with
peers at .2 and .3 on 10.100.0.0/24 it returns 10.100.0.4/32, with no
peers 10.100.0.2/32, and on an exhausted /30 the exhaustion error. -/
theorem C2_get_next_ip (cfg : Config) (cidr s : String) (base mask : Nat) :
    (base ∉ hostCandidates base mask ∧ base + 1 ∉ hostCandidates base mask) ∧
    (parseCIDRL cidr.data = some (base, mask) → cfg.GetNextIP cidr = .ok s →
      ∃ ip, s = ⟨formatIPv4 ip ++ "/32".data⟩ ∧
        ip ∈ hostCandidates base mask ∧ ip ∉ cfg.assignedIPs ∧
        ∀ j ∈ hostCandidates base mask, j < ip → j ∈ cfg.assignedIPs) ∧
    (parseCIDRL cidr.data = some (base, mask) →
      (∀ j ∈ hostCandidates base mask, j ∈ cfg.assignedIPs) →
      cfg.GetNextIP cidr = .error ⟨"no available IPs in range"⟩) ∧
    cfgPeers23.GetNextIP "10.100.0.0/24" = .ok "10.100.0.4/32" ∧
    cfgNoPeers.GetNextIP "10.100.0.0/24" = .ok "10.100.0.2/32" ∧
    cfgExhausted.GetNextIP "10.0.0.0/30" = .error ⟨"no available IPs in range"⟩ := by
  refine ⟨⟨?_, ?_⟩, ?_, ?_, by rfl, by rfl, by rfl⟩
  · rw [mem_hostCandidates]
    omega
  · rw [mem_hostCandidates]
    omega
  · intro hparse hok
    simp only [Config.GetNextIP, hparse] at hok
    cases hf : (hostCandidates base mask).find?
        (fun ip => !(cfg.assignedIPs.contains ip)) with
    | none => rw [hf] at hok; cases hok
    | some ip =>
      rw [hf] at hok
      have hs : s = ⟨formatIPv4 ip ++ "/32".data⟩ := by
        cases hok
        rfl
      rw [List.find?_eq_some_iff_getElem] at hf
      obtain ⟨hip, i, hi, hgi, hpred⟩ := hf
      refine ⟨ip, hs, ?_, ?_, ?_⟩
      · rw [← hgi]
        exact List.getElem_mem hi
      · intro hmem
        have hc : cfg.assignedIPs.contains ip = true := by
          rw [List.elem_iff]
          exact hmem
        rw [hc] at hip
        simp at hip
      · intro j hj hlt
        have hbc : ip = base + 2 + i := by
          rw [← hgi]
          simp only [hostCandidates]
          rw [List.getElem_range']
          omega
        rw [mem_hostCandidates] at hj
        have hjlen : j - (base + 2) < (hostCandidates base mask).length := by
          simp only [hostCandidates, List.length_range']
          omega
        have hidx : j - (base + 2) < i := by omega
        have hp2 := hpred (j - (base + 2)) hidx
        have hgj : (hostCandidates base mask)[j - (base + 2)] = j := by
          simp only [hostCandidates]
          rw [List.getElem_range']
          omega
        rw [hgj] at hp2
        simp only [Bool.not_not] at hp2
        exact List.elem_iff.mp hp2
  · intro hparse hall
    simp only [Config.GetNextIP, hparse]
    have hf : (hostCandidates base mask).find?
        (fun ip => !(cfg.assignedIPs.contains ip)) = none := by
      rw [List.find?_eq_none]
      intro x hx
      rw [Bool.not_eq_true, Bool.not_eq_eq_eq_not, Bool.not_false]
      exact List.elem_eq_true_of_mem (hall x hx)
    rw [hf]

/-- C2 witness: the first-fit characterization applied on the concrete
10.100.0.0/24 block with peers at .2 and .3. -/
theorem C2_get_next_ip_witness :
    ∃ ip, ("10.100.0.4/32" : String) = ⟨formatIPv4 ip ++ "/32".data⟩ ∧
      ip ∈ hostCandidates 174325760 24 ∧ ip ∉ cfgPeers23.assignedIPs ∧
      ∀ j ∈ hostCandidates 174325760 24, j < ip → j ∈ cfgPeers23.assignedIPs :=
  (C2_get_next_ip cfgPeers23 "10.100.0.0/24" "10.100.0.4/32" 174325760 24).2.1
    (by decide) (by rfl)

theorem splitSep_of_not_mem (sep : Char) (l : List Char) (h : sep ∉ l) :
    splitSep sep l = [l] := by
  induction l with
  | nil => rfl
  | cons c cs ih =>
    rw [List.mem_cons, not_or] at h
    have hc : ¬ c = sep := fun he => h.1 he.symm
    show (if c = sep then [] :: splitSep sep cs
      else match splitSep sep cs with
        | [] => [[c]]
        | l :: ls => (c :: l) :: ls) = [c :: cs]
    rw [if_neg hc, ih h.2]

theorem splitSep_append (sep : Char) (pre t : List Char) (h : sep ∉ pre) :
    splitSep sep (pre ++ sep :: t) = pre :: splitSep sep t := by
  induction pre with
  | nil =>
    show (if sep = sep then [] :: splitSep sep t else _) = [] :: splitSep sep t
    rw [if_pos rfl]
  | cons c cs ih =>
    rw [List.mem_cons, not_or] at h
    have hc : ¬ c = sep := fun he => h.1 he.symm
    show (if c = sep then [] :: splitSep sep (cs ++ sep :: t)
      else match splitSep sep (cs ++ sep :: t) with
        | [] => [[c]]
        | l :: ls => (c :: l) :: ls) = (c :: cs) :: splitSep sep t
    rw [if_neg hc, ih h.2]

theorem splitSep_joinLines (ls : List (List Char)) (hne : ls ≠ [])
    (h : ∀ l ∈ ls, '\n' ∉ l) : splitSep '\n' (joinLinesC ls) = ls := by
  induction ls with
  | nil => exact absurd rfl hne
  | cons l rest ih =>
    cases rest with
    | nil =>
      show splitSep '\n' l = [l]
      exact splitSep_of_not_mem '\n' l (h l (List.mem_cons_self l []))
    | cons l2 rest2 =>
      show splitSep '\n' (l ++ '\n' :: joinLinesC (l2 :: rest2)) = l :: l2 :: rest2
      rw [splitSep_append '\n' l _ (h l (List.mem_cons_self l _))]
      rw [ih (by simp) (fun x hx => h x (List.mem_cons_of_mem l hx))]

theorem dropWhile_eq_self_append (p : Char → Bool) (l₁ l₂ : List Char)
    (h : l₁.dropWhile p = l₁) (hne : l₁ ≠ []) :
    (l₁ ++ l₂).dropWhile p = l₁ ++ l₂ := by
  cases l₁ with
  | nil => exact absurd rfl hne
  | cons c t =>
    have hpc : p c = false := by
      by_contra hb
      rw [Bool.not_eq_false] at hb
      rw [List.dropWhile_cons, if_pos hb] at h
      have := congrArg List.length h
      have hlen := (List.dropWhile_sublist (l := t) p).length_le
      simp at this
      omega
    rw [List.cons_append, List.dropWhile_cons, hpc]
    simp

theorem trim_self_dropL (v : List Char) (h : trimL v = v) :
    v.dropWhile isWsChar = v := by
  have hs : v.dropWhile isWsChar <:+ v := List.dropWhile_suffix _
  apply hs.eq_of_length
  have h1 : (trimL v).length ≤ (v.dropWhile isWsChar).length := by
    rw [trimL, List.length_reverse]
    calc ((v.dropWhile isWsChar).reverse.dropWhile isWsChar).length
        ≤ (v.dropWhile isWsChar).reverse.length :=
          (List.dropWhile_sublist _).length_le
      _ = (v.dropWhile isWsChar).length := List.length_reverse _
  have h2 : (v.dropWhile isWsChar).length ≤ v.length :=
    (List.dropWhile_sublist _).length_le
  rw [h] at h1
  omega

theorem trim_self_dropR (v : List Char) (h : trimL v = v) :
    v.reverse.dropWhile isWsChar = v.reverse := by
  have hd := trim_self_dropL v h
  rw [trimL, hd] at h
  have h2 := congrArg List.reverse h
  rw [List.reverse_reverse] at h2
  exact h2

theorem trimL_append_of (l₁ l₂ : List Char)
    (h₁ : l₁.dropWhile isWsChar = l₁) (hne₁ : l₁ ≠ [])
    (h₂ : l₂.reverse.dropWhile isWsChar = l₂.reverse) (hne₂ : l₂ ≠ []) :
    trimL (l₁ ++ l₂) = l₁ ++ l₂ := by
  rw [trimL]
  rw [dropWhile_eq_self_append isWsChar l₁ l₂ h₁ hne₁]
  rw [List.reverse_append]
  rw [dropWhile_eq_self_append isWsChar l₂.reverse l₁.reverse h₂ (by simpa using hne₂)]
  rw [← List.reverse_append, List.reverse_reverse]

theorem trimL_cons_space (v : List Char) (h : trimL v = v) :
    trimL (' ' :: v) = v := by
  rw [trimL, List.dropWhile_cons]
  have : isWsChar ' ' = true := by decide
  rw [this]
  rw [if_pos rfl, trim_self_dropL v h, trim_self_dropR v h, List.reverse_reverse]

theorem trim_renderKV (key v : List Char) (hk1 : key.dropWhile isWsChar = key)
    (hk2 : key ≠ []) (hv : goodVal v) :
    trimL (renderKV key v) = renderKV key v := by
  show trimL (key ++ ' ' :: '=' :: ' ' :: v) = key ++ ' ' :: '=' :: ' ' :: v
  apply trimL_append_of key _ hk1 hk2 ?_ (by simp)
  show (' ' :: '=' :: ' ' :: v).reverse.dropWhile isWsChar = (' ' :: '=' :: ' ' :: v).reverse
  have h2 : (' ' :: '=' :: ' ' :: v).reverse = v.reverse ++ [' ', '=', ' '] := by simp
  rw [h2]
  exact dropWhile_eq_self_append _ _ _ (trim_self_dropR v hv.2.1) (by simpa using hv.1)

theorem parse_marker_interface (st : ParseState) :
    parseLine st "[Interface]".data = { st with sec := .interfaceSec, pend := none } := rfl

theorem parse_marker_peer (st : ParseState) :
    parseLine st "[Peer]".data
      = { st with
          sec := .peerSec, done := flushPeers st,
          cur := some ⟨[], [], [], false⟩, pend := none } := rfl

theorem parse_blank (st : ParseState) :
    parseLine st [] = { st with pend := none } := rfl

theorem parse_comment (st : ParseState) (nm : List Char) (hnm : goodVal nm) :
    parseLine st ('#' :: ' ' :: nm) = { st with pend := some nm } := by
  have ht : trimL ('#' :: ' ' :: nm) = '#' :: ' ' :: nm := by
    show trimL (['#'] ++ (' ' :: nm)) = ['#'] ++ (' ' :: nm)
    apply trimL_append_of ['#'] _ (by decide) (by simp) ?_ (by simp)
    show (' ' :: nm).reverse.dropWhile isWsChar = (' ' :: nm).reverse
    have h2 : (' ' :: nm).reverse = nm.reverse ++ [' '] := by simp
    rw [h2]
    exact dropWhile_eq_self_append _ _ _ (trim_self_dropR nm hnm.2.1) (by simpa using hnm.1)
  have h1 : ¬ ('#' :: ' ' :: nm = "[Interface]".data) := by
    intro h
    have hh : some '#' = some '[' := congrArg List.head? h
    exact absurd hh (by decide)
  have h2 : ¬ ('#' :: ' ' :: nm = "[Peer]".data) := by
    intro h
    have hh : some '#' = some '[' := congrArg List.head? h
    exact absurd hh (by decide)
  have h3 : ¬ ('#' :: ' ' :: nm = ([] : List Char)) := by simp
  have h4 : ('#' :: ' ' :: nm).head? = some '#' := rfl
  simp only [parseLine, ht]
  rw [if_neg h1, if_neg h2, if_neg h3, if_pos h4]
  show _ = { st with pend := some nm }
  rw [show ('#' :: ' ' :: nm).drop 1 = ' ' :: nm from rfl]
  rw [trimL_cons_space nm hnm.2.1]

theorem parse_iface_private_key (st : ParseState) (v : List Char)
    (hsec : st.sec = .interfaceSec) (hv : goodVal v) :
    parseLine st (renderKV "PrivateKey".data v)
      = { st with privateKey := v, pend := none } := by
  have ht : trimL (renderKV "PrivateKey".data v) = renderKV "PrivateKey".data v :=
    trim_renderKV _ v (by decide) (by decide) hv
  have h1 : ¬ (renderKV "PrivateKey".data v = "[Interface]".data) := by
    intro h
    have hh : some 'P' = some '[' := congrArg List.head? h
    exact absurd hh (by decide)
  have h2 : ¬ (renderKV "PrivateKey".data v = "[Peer]".data) := by
    intro h
    have hh : some 'P' = some '[' := congrArg List.head? h
    exact absurd hh (by decide)
  have h3 : ¬ (renderKV "PrivateKey".data v = ([] : List Char)) := by
    intro h
    have hh : some 'P' = (none : Option Char) := congrArg List.head? h
    exact absurd hh (by decide)
  have h4 : ¬ ((renderKV "PrivateKey".data v).head? = some '#') := by
    intro h
    have hh : some 'P' = some '#' := h
    exact absurd hh (by decide)
  have hkey : trimL (takeUntil '=' (renderKV "PrivateKey".data v)) = "PrivateKey".data := by
    rw [show renderKV "PrivateKey".data v = "PrivateKey ".data ++ '=' :: (' ' :: v) from rfl]
    rw [takeUntil_split '=' _ _ (by decide)]
    decide
  have hval : extractValueL (renderKV "PrivateKey".data v) = v := by
    rw [show renderKV "PrivateKey".data v = "PrivateKey ".data ++ '=' :: (' ' :: v) from rfl]
    rw [extractValueL_split _ _ (by decide)]
    exact trimL_cons_space v hv.2.1
  simp only [parseLine, ht]
  rw [if_neg h1, if_neg h2, if_neg h3, if_neg h4]
  simp [hsec, hkey, hval]

theorem parse_iface_address (st : ParseState) (v : List Char)
    (hsec : st.sec = .interfaceSec) (hv : goodVal v) :
    parseLine st (renderKV "Address".data v)
      = { st with address := v, pend := none } := by
  have ht : trimL (renderKV "Address".data v) = renderKV "Address".data v :=
    trim_renderKV _ v (by decide) (by decide) hv
  have h1 : ¬ (renderKV "Address".data v = "[Interface]".data) := by
    intro h
    have hh : some 'A' = some '[' := congrArg List.head? h
    exact absurd hh (by decide)
  have h2 : ¬ (renderKV "Address".data v = "[Peer]".data) := by
    intro h
    have hh : some 'A' = some '[' := congrArg List.head? h
    exact absurd hh (by decide)
  have h3 : ¬ (renderKV "Address".data v = ([] : List Char)) := by
    intro h
    have hh : some 'A' = (none : Option Char) := congrArg List.head? h
    exact absurd hh (by decide)
  have h4 : ¬ ((renderKV "Address".data v).head? = some '#') := by
    intro h
    have hh : some 'A' = some '#' := h
    exact absurd hh (by decide)
  have hkey : trimL (takeUntil '=' (renderKV "Address".data v)) = "Address".data := by
    rw [show renderKV "Address".data v = "Address ".data ++ '=' :: (' ' :: v) from rfl]
    rw [takeUntil_split '=' _ _ (by decide)]
    decide
  have hval : extractValueL (renderKV "Address".data v) = v := by
    rw [show renderKV "Address".data v = "Address ".data ++ '=' :: (' ' :: v) from rfl]
    rw [extractValueL_split _ _ (by decide)]
    exact trimL_cons_space v hv.2.1
  simp only [parseLine, ht]
  rw [if_neg h1, if_neg h2, if_neg h3, if_neg h4]
  simp [hsec, hkey, hval]

theorem parse_iface_listen_port (st : ParseState) (v : List Char)
    (hsec : st.sec = .interfaceSec) (hv : goodVal v) :
    parseLine st (renderKV "ListenPort".data v)
      = { st with listenPort := v, pend := none } := by
  have ht : trimL (renderKV "ListenPort".data v) = renderKV "ListenPort".data v :=
    trim_renderKV _ v (by decide) (by decide) hv
  have h1 : ¬ (renderKV "ListenPort".data v = "[Interface]".data) := by
    intro h
    have hh : some 'L' = some '[' := congrArg List.head? h
    exact absurd hh (by decide)
  have h2 : ¬ (renderKV "ListenPort".data v = "[Peer]".data) := by
    intro h
    have hh : some 'L' = some '[' := congrArg List.head? h
    exact absurd hh (by decide)
  have h3 : ¬ (renderKV "ListenPort".data v = ([] : List Char)) := by
    intro h
    have hh : some 'L' = (none : Option Char) := congrArg List.head? h
    exact absurd hh (by decide)
  have h4 : ¬ ((renderKV "ListenPort".data v).head? = some '#') := by
    intro h
    have hh : some 'L' = some '#' := h
    exact absurd hh (by decide)
  have hkey : trimL (takeUntil '=' (renderKV "ListenPort".data v)) = "ListenPort".data := by
    rw [show renderKV "ListenPort".data v = "ListenPort ".data ++ '=' :: (' ' :: v) from rfl]
    rw [takeUntil_split '=' _ _ (by decide)]
    decide
  have hval : extractValueL (renderKV "ListenPort".data v) = v := by
    rw [show renderKV "ListenPort".data v = "ListenPort ".data ++ '=' :: (' ' :: v) from rfl]
    rw [extractValueL_split _ _ (by decide)]
    exact trimL_cons_space v hv.2.1
  simp only [parseLine, ht]
  rw [if_neg h1, if_neg h2, if_neg h3, if_neg h4]
  simp [hsec, hkey, hval]

theorem parse_peer_public_key (st : ParseState) (v : List Char) (c : CurPeer)
    (hsec : st.sec = .peerSec) (hcur : st.cur = some c) (hv : goodVal v) :
    parseLine st (renderKV "PublicKey".data v)
      = { st with
          cur := some (if c.keySeen then { c with pkey := v }
            else { c with pkey := v, pname := st.pend.getD [], keySeen := true }),
          pend := none } := by
  have ht : trimL (renderKV "PublicKey".data v) = renderKV "PublicKey".data v :=
    trim_renderKV _ v (by decide) (by decide) hv
  have h1 : ¬ (renderKV "PublicKey".data v = "[Interface]".data) := by
    intro h
    have hh : some 'P' = some '[' := congrArg List.head? h
    exact absurd hh (by decide)
  have h2 : ¬ (renderKV "PublicKey".data v = "[Peer]".data) := by
    intro h
    have hh : some 'P' = some '[' := congrArg List.head? h
    exact absurd hh (by decide)
  have h3 : ¬ (renderKV "PublicKey".data v = ([] : List Char)) := by
    intro h
    have hh : some 'P' = (none : Option Char) := congrArg List.head? h
    exact absurd hh (by decide)
  have h4 : ¬ ((renderKV "PublicKey".data v).head? = some '#') := by
    intro h
    have hh : some 'P' = some '#' := h
    exact absurd hh (by decide)
  have hkey : trimL (takeUntil '=' (renderKV "PublicKey".data v)) = "PublicKey".data := by
    rw [show renderKV "PublicKey".data v = "PublicKey ".data ++ '=' :: (' ' :: v) from rfl]
    rw [takeUntil_split '=' _ _ (by decide)]
    decide
  have hval : extractValueL (renderKV "PublicKey".data v) = v := by
    rw [show renderKV "PublicKey".data v = "PublicKey ".data ++ '=' :: (' ' :: v) from rfl]
    rw [extractValueL_split _ _ (by decide)]
    exact trimL_cons_space v hv.2.1
  simp only [parseLine, ht]
  rw [if_neg h1, if_neg h2, if_neg h3, if_neg h4]
  simp [hsec, hcur, hkey, hval]

theorem parse_peer_allowed_ips (st : ParseState) (v : List Char) (c : CurPeer)
    (hsec : st.sec = .peerSec) (hcur : st.cur = some c) (hv : goodVal v) :
    parseLine st (renderKV "AllowedIPs".data v)
      = { st with
          cur := some (if c.keySeen then { c with pips := v }
            else { c with pips := v, pname := st.pend.getD [], keySeen := true }),
          pend := none } := by
  have ht : trimL (renderKV "AllowedIPs".data v) = renderKV "AllowedIPs".data v :=
    trim_renderKV _ v (by decide) (by decide) hv
  have h1 : ¬ (renderKV "AllowedIPs".data v = "[Interface]".data) := by
    intro h
    have hh : some 'A' = some '[' := congrArg List.head? h
    exact absurd hh (by decide)
  have h2 : ¬ (renderKV "AllowedIPs".data v = "[Peer]".data) := by
    intro h
    have hh : some 'A' = some '[' := congrArg List.head? h
    exact absurd hh (by decide)
  have h3 : ¬ (renderKV "AllowedIPs".data v = ([] : List Char)) := by
    intro h
    have hh : some 'A' = (none : Option Char) := congrArg List.head? h
    exact absurd hh (by decide)
  have h4 : ¬ ((renderKV "AllowedIPs".data v).head? = some '#') := by
    intro h
    have hh : some 'A' = some '#' := h
    exact absurd hh (by decide)
  have hkey : trimL (takeUntil '=' (renderKV "AllowedIPs".data v)) = "AllowedIPs".data := by
    rw [show renderKV "AllowedIPs".data v = "AllowedIPs ".data ++ '=' :: (' ' :: v) from rfl]
    rw [takeUntil_split '=' _ _ (by decide)]
    decide
  have hval : extractValueL (renderKV "AllowedIPs".data v) = v := by
    rw [show renderKV "AllowedIPs".data v = "AllowedIPs ".data ++ '=' :: (' ' :: v) from rfl]
    rw [extractValueL_split _ _ (by decide)]
    exact trimL_cons_space v hv.2.1
  simp only [parseLine, ht]
  rw [if_neg h1, if_neg h2, if_neg h3, if_neg h4]
  simp [hsec, hcur, hkey, hval]

theorem parseLinesC_append (st : ParseState) (xs ys : List (List Char)) :
    parseLinesC st (xs ++ ys) = parseLinesC (parseLinesC st xs) ys := by
  simp [parseLinesC, List.foldl_append]

theorem parseLinesC_blank (st : ParseState) :
    parseLinesC st [[]] = { st with pend := none } :=
  parse_blank st

theorem parse_iface_block (pk addr port : List Char)
    (hpk : goodVal pk) (haddr : goodVal addr) (hport : goodVal port) :
    parseLinesC initState (ifaceLines pk addr port)
      = { sec := .interfaceSec, privateKey := pk, address := addr,
          listenPort := port, postUp := [], postDown := [], done := [],
          cur := none, pend := none } := by
  simp only [parseLinesC, ifaceLines, List.foldl_cons, List.foldl_nil]
  rw [parse_marker_interface]
  rw [parse_iface_private_key _ pk rfl hpk]
  rw [parse_iface_address _ addr rfl haddr]
  rw [parse_iface_listen_port _ port rfl hport]
  rw [parse_blank]
  rfl

theorem parse_peer_block (st : ParseState) (n : Option (List Char)) (k i : List Char)
    (hn : goodName n) (hk : goodVal k) (hi : goodVal i) :
    parseLinesC st (peerLines n k i)
      = { st with
          sec := .peerSec, done := flushPeers st,
          cur := some ⟨n.getD [], k, i, true⟩, pend := none } := by
  cases n with
  | none =>
    simp only [peerLines, renderName, List.nil_append, parseLinesC,
      List.foldl_cons, List.foldl_nil]
    rw [parse_marker_peer]
    rw [parse_peer_public_key _ k ⟨[], [], [], false⟩ rfl rfl hk]
    rw [parse_peer_allowed_ips _ i ⟨[], k, [], true⟩ rfl rfl hi]
    rfl
  | some nm =>
    simp only [peerLines, renderName, List.cons_append, List.nil_append,
      parseLinesC, List.foldl_cons, List.foldl_nil]
    rw [parse_marker_peer]
    rw [parse_comment _ nm hn]
    rw [parse_peer_public_key _ k ⟨[], [], [], false⟩ rfl rfl hk]
    rw [parse_peer_allowed_ips _ i ⟨nm, k, [], true⟩ rfl rfl hi]
    rfl

theorem no_newline_renderKV (key v : List Char) (hkey : '\n' ∉ key)
    (hv : '\n' ∉ v) : '\n' ∉ renderKV key v := by
  simp only [renderKV, List.mem_append, List.mem_cons]
  rintro (h | h | h | h)
  · exact hkey h
  · exact absurd h (by decide)
  · exact absurd h (by decide)
  · rcases h with h | h
    · exact absurd h (by decide)
    · exact hv h

theorem no_newline_ifaceLines (pk addr port : List Char) (hpk : goodVal pk)
    (haddr : goodVal addr) (hport : goodVal port) :
    ∀ l ∈ ifaceLines pk addr port, '\n' ∉ l := by
  intro l hl
  simp only [ifaceLines, List.mem_cons] at hl
  rcases hl with rfl | rfl | rfl | rfl | rfl | h
  · decide
  · exact no_newline_renderKV _ pk (by decide) hpk.2.2
  · exact no_newline_renderKV _ addr (by decide) haddr.2.2
  · exact no_newline_renderKV _ port (by decide) hport.2.2
  · simp
  · cases h

theorem no_newline_peerLines (n : Option (List Char)) (k i : List Char)
    (hn : goodName n) (hk : goodVal k) (hi : goodVal i) :
    ∀ l ∈ peerLines n k i, '\n' ∉ l := by
  intro l hl
  simp only [peerLines, List.mem_cons, List.mem_append] at hl
  rcases hl with rfl | hr | rfl | rfl | h
  · decide
  · cases n with
    | none => cases hr
    | some nm =>
      simp only [renderName, List.mem_cons] at hr
      rcases hr with rfl | h
      · simp only [List.mem_cons]
        rintro (h | h | h)
        · exact absurd h (by decide)
        · exact absurd h (by decide)
        · exact hn.2.2 h
      · cases h
  · exact no_newline_renderKV _ k (by decide) hk.2.2
  · exact no_newline_renderKV _ i (by decide) hi.2.2
  · cases h

theorem no_newline_twoPeerLines (pk addr port k1 i1 k2 i2 : List Char)
    (n1 n2 : Option (List Char)) (hpk : goodVal pk) (haddr : goodVal addr)
    (hport : goodVal port) (hn1 : goodName n1) (hk1 : goodVal k1)
    (hi1 : goodVal i1) (hn2 : goodName n2) (hk2 : goodVal k2) (hi2 : goodVal i2) :
    ∀ l ∈ twoPeerLines pk addr port n1 k1 i1 n2 k2 i2, '\n' ∉ l := by
  intro l hl
  simp only [twoPeerLines, List.mem_append] at hl
  rcases hl with (((hA | hB) | hblank) | hC) | hblank2
  · exact no_newline_ifaceLines pk addr port hpk haddr hport l hA
  · exact no_newline_peerLines n1 k1 i1 hn1 hk1 hi1 l hB
  · simp only [List.mem_cons] at hblank
    rcases hblank with rfl | h
    · simp
    · cases h
  · exact no_newline_peerLines n2 k2 i2 hn2 hk2 hi2 l hC
  · simp only [List.mem_cons] at hblank2
    rcases hblank2 with rfl | h
    · simp
    · cases h

/-- C4: for every well-formed two-peer WireGuard config file (arbitrary
well-formed interface values, peer keys, allowed-IPs, and optional name
comments), Load succeeds, populates privateKey, address and listenPort from
the Interface section, and GetPeers returns exactly the two peers in file
order, each Name taken from the comment directly preceding its first key
line (empty if absent), with PublicKey and AllowedIPs exactly matching the
source text. -/
theorem C4_load_two_peer_config (path iface : String)
    (pk addr port k1 i1 k2 i2 : List Char) (n1 n2 : Option (List Char))
    (hpk : goodVal pk) (haddr : goodVal addr) (hport : goodVal port)
    (hn1 : goodName n1) (hk1 : goodVal k1) (hi1 : goodVal i1)
    (hn2 : goodName n2) (hk2 : goodVal k2) (hi2 : goodVal i2) :
    Config.load (Config.new path iface)
        (fun p => if p = path
          then some (joinLinesC (twoPeerLines pk addr port n1 k1 i1 n2 k2 i2))
          else none)
      = .ok { path := path, iface := iface, privateKey := ⟨pk⟩, address := ⟨addr⟩,
              listenPort := ⟨port⟩, postUp := "", postDown := "",
              peers := [Peer.mk ⟨n1.getD []⟩ ⟨k1⟩ ⟨i1⟩,
                        Peer.mk ⟨n2.getD []⟩ ⟨k2⟩ ⟨i2⟩] } ∧
    (parseConfigText (Config.new path iface)
        (joinLinesC (twoPeerLines pk addr port n1 k1 i1 n2 k2 i2))).GetPeers
      = [Peer.mk ⟨n1.getD []⟩ ⟨k1⟩ ⟨i1⟩, Peer.mk ⟨n2.getD []⟩ ⟨k2⟩ ⟨i2⟩] := by
  have hfree := no_newline_twoPeerLines pk addr port k1 i1 k2 i2 n1 n2
    hpk haddr hport hn1 hk1 hi1 hn2 hk2 hi2
  have hne : twoPeerLines pk addr port n1 k1 i1 n2 k2 i2 ≠ [] := by
    simp [twoPeerLines, ifaceLines]
  have hsplit := splitSep_joinLines _ hne hfree
  have hmain : parseConfigText (Config.new path iface)
      (joinLinesC (twoPeerLines pk addr port n1 k1 i1 n2 k2 i2))
      = { path := path, iface := iface, privateKey := ⟨pk⟩, address := ⟨addr⟩,
          listenPort := ⟨port⟩, postUp := "", postDown := "",
          peers := [Peer.mk ⟨n1.getD []⟩ ⟨k1⟩ ⟨i1⟩,
                    Peer.mk ⟨n2.getD []⟩ ⟨k2⟩ ⟨i2⟩] } := by
    simp only [parseConfigText]
    rw [hsplit]
    simp only [twoPeerLines, parseLinesC_append]
    rw [parse_iface_block pk addr port hpk haddr hport]
    rw [parse_peer_block _ n1 k1 i1 hn1 hk1 hi1]
    rw [parseLinesC_blank]
    rw [parse_peer_block _ n2 k2 i2 hn2 hk2 hi2]
    rw [parseLinesC_blank]
    rfl
  constructor
  · simp only [Config.load, Config.new, if_pos rfl]
    rw [← hmain]
    rfl
  · simp only [Config.GetPeers]
    rw [hmain]

/-- C4 witness: the two-peer round trip at the concrete TestLoad values —
alice and bob with their keys and allowed IPs, interface values from the
test file. -/
theorem C4_load_two_peer_config_witness :
    Config.load (Config.new "/tmp/wg0.conf" "wg0")
        (fun p => if p = "/tmp/wg0.conf"
          then some (joinLinesC (twoPeerLines "cGFzc3dvcmQ=".data
            "10.100.0.1/24".data "51820".data
            (some "alice".data) "YWxpY2VrZXk=".data "10.100.0.2/32".data
            (some "bob".data) "Ym9ia2V5".data "10.100.0.3/32".data))
          else none)
      = .ok { path := "/tmp/wg0.conf", iface := "wg0",
              privateKey := "cGFzc3dvcmQ=", address := "10.100.0.1/24",
              listenPort := "51820", postUp := "", postDown := "",
              peers := [Peer.mk "alice" "YWxpY2VrZXk=" "10.100.0.2/32",
                        Peer.mk "bob" "Ym9ia2V5" "10.100.0.3/32"] } :=
  (C4_load_two_peer_config "/tmp/wg0.conf" "wg0" "cGFzc3dvcmQ=".data
    "10.100.0.1/24".data "51820".data "YWxpY2VrZXk=".data "10.100.0.2/32".data
    "Ym9ia2V5".data "10.100.0.3/32".data (some "alice".data) (some "bob".data)
    ⟨by decide, by decide, by decide⟩ ⟨by decide, by decide, by decide⟩
    ⟨by decide, by decide, by decide⟩ ⟨by decide, by decide, by decide⟩
    ⟨by decide, by decide, by decide⟩ ⟨by decide, by decide, by decide⟩
    ⟨by decide, by decide, by decide⟩ ⟨by decide, by decide, by decide⟩
    ⟨by decide, by decide, by decide⟩).1
